import Mathlib

/-!
Verification of the promptflow graph-definition and resolution model
(`promptflow/contracts/flow.py`).

Python strings are embedded as `List Char` (named `Str`), Python dicts as
association lists with dict-style first-occurrence update, fallible Python
code as `Except`, and in-place mutation as explicit state passing.  Values
of `Any` type (input-assignment values, condition comparands, override
values) are embedded as strings, the only case the verified claims exercise.
-/

set_option linter.unusedVariables false

/-- Python strings, embedded character by character. -/
abbrev Str := List Char

/-- First value bound to a key in an association list (Python `dict.get` /
`dict[k]` read, for dicts whose keys are unique). -/
def alookup (k : Str) : List (Str × α) → Option α
  | [] => none
  | (k', v) :: rest => if k' = k then some v else alookup k rest

/-- Dict-style write `d[k] = v`: replace the first binding of `k`, or append
a new binding when `k` is absent (for dicts whose keys are unique this is
exactly Python's dict assignment). -/
def aset (k : Str) (v : α) : List (Str × α) → List (Str × α)
  | [] => [(k, v)]
  | (k', v') :: rest => if k' = k then (k, v) :: rest else (k', v') :: aset k v rest

/-- Python `s.split(c, 1)` for a string known to contain `c`: the part before
the first occurrence and the part after. -/
def splitFirst (c : Char) (l : Str) : Str × Str :=
  (l.takeWhile (fun x => decide (x ≠ c)), (l.dropWhile (fun x => decide (x ≠ c))).tail)

/-- Python `s.split(c)` (no maxsplit). -/
def splitAll (c : Char) : Str → List Str
  | [] => [[]]
  | x :: xs =>
      if x = c then [] :: splitAll c xs
      else
        match splitAll c xs with
        | [] => [[x]]
        | h :: t => (x :: h) :: t

/-- A string containing no occurrence of `.`. -/
def dotless (s : Str) : Prop := '.' ∉ s

instance (s : Str) : Decidable (dotless s) := by unfold dotless; infer_instance

/-- Python truthiness of an `Optional[str]` field: `None` and `""` are falsy. -/
def optStrTruthy : Option Str → Bool
  | none => false
  | some s => s ≠ []

/-- `InputValueType`: the enum of input value type. -/
inductive InputValueType where
  | LITERAL
  | FLOW_INPUT
  | NODE_REFERENCE
deriving DecidableEq, Repr

/-- `FLOW_INPUT_PREFIX = "flow."`. -/
def FLOW_INPUT_PREFIX_VAL : Str := "flow.".data

/-- `FLOW_INPUT_PREFIXES = [FLOW_INPUT_PREFIX, "inputs."]` (a list for
backward compatibility). -/
def FLOW_INPUT_PREFIXES : List Str := [FLOW_INPUT_PREFIX_VAL, "inputs.".data]

/-- `InputAssignment` (and its subclass `FlowInputAssignment`, rendered by
the extra optional `pfx` field standing for the Python subclass field
`prefix`, which only `FlowInputAssignment` instances carry). -/
structure InputAssignment where
  value : Str
  value_type : InputValueType := .LITERAL
  section_ : Str := []
  property : Str := []
  pfx : Option Str := none
deriving DecidableEq, Repr

/-- `InputAssignment.serialize`.  The `ConnectionType.is_connection_value`
branch of the source is vacuous in this embedding: values are strings,
never connection objects, and the branch falls through to returning the
literal value. -/
def InputAssignment.serialize (a : InputAssignment) : Str :=
  if a.value_type = .FLOW_INPUT then
    "$\x7b".data ++ FLOW_INPUT_PREFIX_VAL ++ a.value ++ "\x7d".data
  else if a.value_type = .NODE_REFERENCE then
    if a.property ≠ [] then
      "$\x7b".data ++ a.value ++ ".".data ++ a.section_ ++ ".".data ++ a.property ++ "\x7d".data
    else
      "$\x7b".data ++ a.value ++ ".".data ++ a.section_ ++ "\x7d".data
  else a.value

/-- The prefix-matching loop of `FlowInputAssignment.deserialize`: the first
prefix in the candidate list that matches produces the assignment. -/
def FlowInputAssignment.firstMatching (value : Str) : List Str → Option InputAssignment
  | [] => none
  | p :: rest =>
      if p.isPrefixOf value then
        some { value := value.drop p.length, value_type := .FLOW_INPUT, pfx := some p }
      else FlowInputAssignment.firstMatching value rest

/-- The prefix-matching loop of `FlowInputAssignment.deserialize`, run over
`FLOW_INPUT_PREFIXES`. -/
def FlowInputAssignment.tryDeserialize (value : Str) : Option InputAssignment :=
  FlowInputAssignment.firstMatching value FLOW_INPUT_PREFIXES

/-- `FlowInputAssignment.is_flow_input`. -/
def FlowInputAssignment.is_flow_input (input_value : Str) : Bool :=
  FLOW_INPUT_PREFIXES.any (fun p => p.isPrefixOf input_value)

/-- `FlowInputAssignment.deserialize`: the matching prefix is stripped; with
no recognized prefix a `ValueError` is raised. -/
def FlowInputAssignment.deserialize (value : Str) : Except Str InputAssignment :=
  match FlowInputAssignment.tryDeserialize value with
  | some a => Except.ok a
  | none => Except.error ("Unexpected flow input value ".data ++ value)

/-- `InputAssignment.deserialize_node_reference`. -/
def InputAssignment.deserialize_node_reference (data : Str) : InputAssignment :=
  if '.' ∈ data then
    let p := splitFirst '.' data
    if '.' ∈ p.2 then
      let q := splitFirst '.' p.2
      { value := p.1, value_type := .NODE_REFERENCE, section_ := q.1, property := q.2 }
    else
      { value := p.1, value_type := .NODE_REFERENCE, section_ := p.2 }
  else
    { value := data, value_type := .NODE_REFERENCE, section_ := "output".data }

/-- `InputAssignment.deserialize_reference`.  The source first tests
`is_flow_input` and only then calls `FlowInputAssignment.deserialize`, whose
error branch is then unreachable (`is_flow_input` holds exactly when some
prefix matches, see `is_flow_input_eq_tryDeserialize_isSome`); the two steps
are fused here into the prefix-matching loop. -/
def InputAssignment.deserialize_reference (value : Str) : InputAssignment :=
  match FlowInputAssignment.tryDeserialize value with
  | some a => a
  | none => InputAssignment.deserialize_node_reference value

/-- `InputAssignment.deserialize`. -/
def InputAssignment.deserialize (value : Str) : InputAssignment :=
  let literal_value : InputAssignment := { value := value }
  if ("$".data).isPrefixOf value ∧ 2 < value.length then
    let v := value.drop 1
    if v.head? ≠ some '{' ∨ v.getLast? ≠ some '}' then literal_value
    else InputAssignment.deserialize_reference ((v.drop 1).dropLast)
  else literal_value

example : InputAssignment.deserialize ("$\x7bflow.topic\x7d".data) =
    { value := "topic".data, value_type := .FLOW_INPUT, pfx := some FLOW_INPUT_PREFIX_VAL } := by
  decide

example : InputAssignment.deserialize ("$\x7bnode1.output.field\x7d".data) =
    { value := "node1".data, value_type := .NODE_REFERENCE,
      section_ := "output".data, property := "field".data } := by decide

example : InputAssignment.deserialize ("plain text".data) = { value := "plain text".data } := by
  decide

example : InputAssignment.deserialize ("$\x7bunterminated".data) =
    { value := "$\x7bunterminated".data } := by decide

example : InputAssignment.deserialize ("$\x7b\x7d".data) =
    { value := [], value_type := .NODE_REFERENCE, section_ := "output".data } := by decide

/-! ### String-constant normal forms -/

theorem data_dollar : "$".data = ['$'] := rfl

theorem data_dollar_brace : "$\x7b".data = ['$', '{'] := rfl

theorem data_close_brace : "\x7d".data = ['}'] := rfl

theorem data_dot : ".".data = ['.'] := rfl

theorem data_flow_dot : "flow.".data = "flow".data ++ ['.'] := rfl

theorem data_inputs_dot : "inputs.".data = "inputs".data ++ ['.'] := rfl

/-! ### Basic list facts -/

theorem isPrefixOf_append_self (p x : Str) : p.isPrefixOf (p ++ x) = true := by
  induction p with
  | nil => simp [List.isPrefixOf]
  | cons a p ih => simp [List.isPrefixOf, ih]

theorem isPrefixOf_eq_true_iff (p l : Str) : p.isPrefixOf l = true ↔ ∃ t, p ++ t = l := by
  rw [List.isPrefixOf_iff_prefix]
  exact Iff.rfl

/-- Splitting at the first `.` of `v ++ '.' :: t` with `v` dot-free is
unambiguous. -/
theorem append_dot_inj {v w t u : Str} (hv : dotless v) (hw : dotless w)
    (h : v ++ '.' :: t = w ++ '.' :: u) : v = w ∧ t = u := by
  induction v generalizing w with
  | nil =>
    cases w with
    | nil => simpa using h
    | cons c w =>
      exfalso
      rw [List.nil_append, List.cons_append] at h
      cases h
      exact hw (by simp)
  | cons a v ih =>
    cases w with
    | nil =>
      exfalso
      rw [List.nil_append, List.cons_append] at h
      cases h
      exact hv (by simp)
    | cons c w =>
      rw [List.cons_append, List.cons_append] at h
      obtain ⟨h1, h2⟩ := List.cons.inj h
      have hv' : dotless v := fun hm => hv (by simp [dotless, hm])
      have hw' : dotless w := fun hm => hw (by simp [dotless, hm])
      obtain ⟨rfl, rfl⟩ := ih hv' hw' h2
      exact ⟨by rw [h1], rfl⟩

theorem isPrefixOf_dot_iff {p v : Str} (t : Str) (hp : dotless p) (hv : dotless v) :
    (p ++ ['.']).isPrefixOf (v ++ '.' :: t) = true ↔ v = p := by
  constructor
  · intro h
    obtain ⟨r, hr⟩ := (isPrefixOf_eq_true_iff _ _).mp h
    rw [List.append_assoc, List.singleton_append] at hr
    exact ((append_dot_inj hp hv hr).1).symm
  · rintro rfl
    have : v ++ '.' :: t = (v ++ ['.']) ++ t := by
      rw [List.append_assoc, List.singleton_append]
    rw [this]
    exact isPrefixOf_append_self _ _

theorem takeWhile_dotless (l : Str) : dotless (l.takeWhile (fun c => c ≠ '.')) := by
  intro hm
  have := List.mem_takeWhile_imp hm
  simp at this

theorem takeWhile_append_dot (v t : Str) (hv : dotless v) :
    (v ++ '.' :: t).takeWhile (fun c => decide (c ≠ '.')) = v := by
  induction v with
  | nil =>
    rw [List.nil_append, List.takeWhile_cons]
    simp
  | cons a v ih =>
    have ha : a ≠ '.' := fun h => hv (by simp [dotless, h])
    have hv' : dotless v := fun hm => hv (by simp [dotless, hm])
    rw [List.cons_append, List.takeWhile_cons, if_pos (by simp [ha]), ih hv']

theorem dropWhile_append_dot (v t : Str) (hv : dotless v) :
    (v ++ '.' :: t).dropWhile (fun c => decide (c ≠ '.')) = '.' :: t := by
  induction v with
  | nil =>
    rw [List.nil_append, List.dropWhile_cons]
    simp
  | cons a v ih =>
    have ha : a ≠ '.' := fun h => hv (by simp [dotless, h])
    have hv' : dotless v := fun hm => hv (by simp [dotless, hm])
    rw [List.cons_append, List.dropWhile_cons, if_pos (by simp [ha]), ih hv']

theorem splitFirst_append_dot (v t : Str) (hv : dotless v) :
    splitFirst '.' (v ++ '.' :: t) = (v, t) := by
  unfold splitFirst
  rw [takeWhile_append_dot v t hv, dropWhile_append_dot v t hv]
  rfl

/-! ### Codec characterization -/

theorem data_dollar_brace_flow : "$\x7bflow.".data = '$' :: '{' :: "flow.".data := rfl

theorem data_dollar_brace_inputs : "$\x7binputs.".data = '$' :: '{' :: "inputs.".data := rfl

/-- The `is_flow_input` guard of `deserialize_reference` holds exactly when
the prefix-matching loop of `FlowInputAssignment.deserialize` succeeds: the
`ValueError` branch is unreachable from `deserialize_reference`. -/
theorem is_flow_input_eq_tryDeserialize_isSome (v : Str) :
    FlowInputAssignment.is_flow_input v = (FlowInputAssignment.tryDeserialize v).isSome := by
  cases h1 : FLOW_INPUT_PREFIX_VAL.isPrefixOf v <;>
    cases h2 : ("inputs.".data).isPrefixOf v <;>
      simp [FlowInputAssignment.is_flow_input, FlowInputAssignment.tryDeserialize,
        FlowInputAssignment.firstMatching, FLOW_INPUT_PREFIXES, h1, h2]

theorem firstMatching_shape {v : Str} {ps : List Str} {a : InputAssignment}
    (h : FlowInputAssignment.firstMatching v ps = some a) :
    ∃ p, p ∈ ps ∧
      a = { value := v.drop p.length, value_type := .FLOW_INPUT, pfx := some p } := by
  induction ps with
  | nil => simp [FlowInputAssignment.firstMatching] at h
  | cons p ps ih =>
    rw [FlowInputAssignment.firstMatching] at h
    by_cases hp : p.isPrefixOf v
    · rw [if_pos hp] at h
      exact ⟨p, by simp, (Option.some.inj h).symm⟩
    · rw [if_neg hp] at h
      obtain ⟨q, hq, rfl⟩ := ih h
      exact ⟨q, by simp [hq], rfl⟩

theorem tryDeserialize_flow_append (x : Str) :
    FlowInputAssignment.tryDeserialize (FLOW_INPUT_PREFIX_VAL ++ x) =
      some { value := x, value_type := .FLOW_INPUT, pfx := some FLOW_INPUT_PREFIX_VAL } := by
  simp [FlowInputAssignment.tryDeserialize, FLOW_INPUT_PREFIXES,
    FlowInputAssignment.firstMatching, isPrefixOf_append_self, List.drop_left]

theorem tryDeserialize_inputs_append (x : Str) :
    FlowInputAssignment.tryDeserialize ("inputs.".data ++ x) =
      some { value := x, value_type := .FLOW_INPUT, pfx := some ("inputs.".data) } := by
  have hff : FLOW_INPUT_PREFIX_VAL.isPrefixOf ("inputs.".data ++ x) = false := by
    have hne : ('f' == 'i') = false := by decide
    show List.isPrefixOf ('f' :: "low.".data) ('i' :: ("nputs.".data ++ x)) = false
    simp [List.isPrefixOf, hne]
  unfold FlowInputAssignment.tryDeserialize FLOW_INPUT_PREFIXES
  rw [FlowInputAssignment.firstMatching,
    if_neg (show ¬(FLOW_INPUT_PREFIX_VAL.isPrefixOf ("inputs.".data ++ x) = true) from by
      rw [hff]; exact Bool.false_ne_true)]
  rw [FlowInputAssignment.firstMatching, if_pos (isPrefixOf_append_self _ _)]
  rw [List.drop_left]

theorem isPrefixOf_false_of_ne {p v : Str} (t : Str) (hp : dotless p) (hv : dotless v)
    (hne : v ≠ p) : (p ++ ['.']).isPrefixOf (v ++ '.' :: t) = false := by
  cases h : (p ++ ['.']).isPrefixOf (v ++ '.' :: t) with
  | true => exact absurd ((isPrefixOf_dot_iff t hp hv).mp h) hne
  | false => rfl

theorem tryDeserialize_node_append (v t : Str) (hv : dotless v)
    (hf : v ≠ "flow".data) (hi : v ≠ "inputs".data) :
    FlowInputAssignment.tryDeserialize (v ++ '.' :: t) = none := by
  have h1 : FLOW_INPUT_PREFIX_VAL.isPrefixOf (v ++ '.' :: t) = false := by
    rw [show FLOW_INPUT_PREFIX_VAL = "flow".data ++ ['.'] from rfl]
    exact isPrefixOf_false_of_ne t (by decide) hv hf
  have h2 : ("inputs.".data).isPrefixOf (v ++ '.' :: t) = false := by
    rw [data_inputs_dot]
    exact isPrefixOf_false_of_ne t (by decide) hv hi
  simp [FlowInputAssignment.tryDeserialize, FLOW_INPUT_PREFIXES,
    FlowInputAssignment.firstMatching, h1, h2]

theorem dotless_splitFirst_fst (l : Str) : dotless ((splitFirst '.' l).1) := by
  intro hm
  have hm' : '.' ∈ l.takeWhile (fun x => decide (x ≠ '.')) := hm
  have hx := List.mem_takeWhile_imp hm'
  simp at hx

theorem dnr_shape (d : Str) : ∃ v sec pr, dotless v ∧ dotless sec ∧
    InputAssignment.deserialize_node_reference d =
      { value := v, value_type := .NODE_REFERENCE, section_ := sec, property := pr } := by
  unfold InputAssignment.deserialize_node_reference
  by_cases h1 : '.' ∈ d
  · rw [if_pos h1]
    by_cases h2 : '.' ∈ (splitFirst '.' d).2
    · rw [if_pos h2]
      exact ⟨_, _, _, dotless_splitFirst_fst d, dotless_splitFirst_fst _, rfl⟩
    · rw [if_neg h2]
      exact ⟨_, _, _, dotless_splitFirst_fst d, h2, rfl⟩
  · rw [if_neg h1]
    exact ⟨d, "output".data, [], h1, by decide, rfl⟩

/-- Deserializing a well-wrapped string hands the inner text to
`deserialize_reference`. -/
theorem deserialize_wrap (inner : Str) :
    InputAssignment.deserialize ('$' :: '{' :: (inner ++ ['}'])) =
      InputAssignment.deserialize_reference inner := by
  have h1 : ("$".data).isPrefixOf ('$' :: '{' :: (inner ++ ['}'])) = true := by
    rw [data_dollar]
    simp [List.isPrefixOf]
  have h2 : 2 < ('$' :: '{' :: (inner ++ ['}'])).length := by
    simp
  have h3 : ('{' :: (inner ++ ['}'])).getLast? = some '}' := by
    rw [← List.cons_append, List.getLast?_concat]
  show (if ("$".data).isPrefixOf ('$' :: '{' :: (inner ++ ['}'])) ∧
          2 < ('$' :: '{' :: (inner ++ ['}'])).length then
          if ('{' :: (inner ++ ['}'])).head? ≠ some '{' ∨
              ('{' :: (inner ++ ['}'])).getLast? ≠ some '}' then
            ({ value := '$' :: '{' :: (inner ++ ['}']) } : InputAssignment)
          else InputAssignment.deserialize_reference ((inner ++ ['}']).dropLast)
        else { value := '$' :: '{' :: (inner ++ ['}']) }) =
      InputAssignment.deserialize_reference inner
  rw [if_pos ⟨h1, h2⟩, if_neg (by simp [h3]), List.dropLast_concat]

/-- Shape of the outcomes of `InputAssignment.deserialize`: either the
wrapper conditions fail and the original string comes back as a literal, or
they hold and the bracket-stripped inner text is dispatched to
`deserialize_reference`. -/
theorem deserialize_eq_of_shape (s : Str) :
    (¬ (("$".data).isPrefixOf s = true ∧ 2 < s.length ∧
          (s.drop 1).head? = some '{' ∧ (s.drop 1).getLast? = some '}') ∧
        InputAssignment.deserialize s = { value := s }) ∨
    ((("$".data).isPrefixOf s = true ∧ 2 < s.length ∧
          (s.drop 1).head? = some '{' ∧ (s.drop 1).getLast? = some '}') ∧
        InputAssignment.deserialize s =
          InputAssignment.deserialize_reference ((s.drop 2).dropLast)) := by
  by_cases hc : ("$".data).isPrefixOf s = true ∧ 2 < s.length
  · by_cases hb : (s.drop 1).head? ≠ some '{' ∨ (s.drop 1).getLast? ≠ some '}'
    · left
      constructor
      · rintro ⟨_, _, hh, hl⟩
        rcases hb with hb | hb <;> exact hb (by assumption)
      · show (if ("$".data).isPrefixOf s ∧ 2 < s.length then _ else _) = _
        rw [if_pos hc, if_pos hb]
    · right
      push_neg at hb
      refine ⟨⟨hc.1, hc.2, hb.1, hb.2⟩, ?_⟩
      show (if ("$".data).isPrefixOf s ∧ 2 < s.length then
              if (s.drop 1).head? ≠ some '{' ∨ (s.drop 1).getLast? ≠ some '}' then _
              else InputAssignment.deserialize_reference (((s.drop 1).drop 1).dropLast)
            else _) = _
      rw [if_pos hc, if_neg (by push_neg; exact hb), List.drop_drop]
  · left
    constructor
    · rintro ⟨ha, hl, _⟩
      exact hc ⟨ha, hl⟩
    · show (if ("$".data).isPrefixOf s ∧ 2 < s.length then _ else _) = _
      rw [if_neg hc]

theorem deserialize_reference_vt (v : Str) :
    (InputAssignment.deserialize_reference v).value_type = .FLOW_INPUT ∨
    (InputAssignment.deserialize_reference v).value_type = .NODE_REFERENCE := by
  unfold InputAssignment.deserialize_reference
  cases h : FlowInputAssignment.tryDeserialize v with
  | some a =>
    obtain ⟨p, _, rfl⟩ := firstMatching_shape h
    exact Or.inl rfl
  | none =>
    obtain ⟨w, sec, pr, _, _, hd⟩ := dnr_shape v
    rw [hd]
    exact Or.inr rfl

/-- The reference-shape condition on a raw string, as the spec words it: it
starts with `$`, has length greater than 2, the character after `$` is an
opening brace, and the last character is a closing brace. -/
def InputAssignment.isReferenceString (s : Str) : Prop :=
  ("$".data).isPrefixOf s = true ∧ 2 < s.length ∧ s[1]? = some '{' ∧ s.getLast? = some '}'

instance (s : Str) : Decidable (InputAssignment.isReferenceString s) := by
  unfold InputAssignment.isReferenceString
  infer_instance

/-- With the length bound in force, the code's checks on `s[1:]` agree with
the claim's checks on `s` itself. -/
theorem referenceString_eq_code_conditions (s : Str) :
    InputAssignment.isReferenceString s ↔
      (("$".data).isPrefixOf s = true ∧ 2 < s.length ∧
        (s.drop 1).head? = some '{' ∧ (s.drop 1).getLast? = some '}') := by
  unfold InputAssignment.isReferenceString
  match s with
  | [] => simp
  | [a] => simp
  | [a, b] => simp
  | a :: b :: c :: t =>
    have hd : ((a :: b :: c :: t : Str).drop 1) = b :: c :: t := rfl
    have hi : ((a :: b :: c :: t : Str))[1]? = some b := rfl
    have hg : ((a :: b :: c :: t : Str)).getLast? = (b :: c :: t).getLast? :=
      List.getLast?_cons_cons
    rw [hd, hi, hg, List.head?_cons]

/-- C1 (amended): `InputAssignment.deserialize` yields a reference
(FlowInput or NodeReference) exactly when the string starts with `$`, has
length > 2, the character after `$` is `{`, and the string ends with `}`;
every string failing these conditions (missing closing brace, wrong second
character, too short, no `$`) comes back as a Literal assignment holding the
original string unchanged.  The embedding is a total function, matching the
source's no-raise behavior on this path.  (The original claim also listed
the empty-braces string as a literal; that part is refuted by
`deserialize_empty_braces_is_node_reference`.) -/
theorem deserialize_is_reference_iff (s : Str) :
    (((InputAssignment.deserialize s).value_type = .FLOW_INPUT ∨
        (InputAssignment.deserialize s).value_type = .NODE_REFERENCE) ↔
      InputAssignment.isReferenceString s)
    ∧ (¬ InputAssignment.isReferenceString s →
        InputAssignment.deserialize s = { value := s }) := by
  rw [referenceString_eq_code_conditions]
  rcases deserialize_eq_of_shape s with ⟨hn, he⟩ | ⟨hy, he⟩
  · refine ⟨⟨?_, ?_⟩, fun _ => he⟩
    · rw [he]
      rintro (h | h) <;> simp at h
    · intro h
      exact absurd h hn
  · refine ⟨⟨fun _ => hy, fun _ => ?_⟩, fun h => absurd hy h⟩
    rw [he]
    exact deserialize_reference_vt _

/-- C1 counterexample: the empty-braces string `"${}"` satisfies the
reference-shape conditions and deserializes to a NodeReference with empty
node name and section `"output"` — not to a Literal as the claim states. -/
theorem deserialize_empty_braces_is_node_reference :
    InputAssignment.deserialize ("$\x7b\x7d".data) =
        { value := [], value_type := .NODE_REFERENCE, section_ := "output".data } ∧
      (InputAssignment.deserialize ("$\x7b\x7d".data)).value_type ≠ .LITERAL := by
  decide

/-- Witness for C1's amended theorem at a concrete non-reference input. -/
theorem deserialize_is_reference_iff_witness :
    InputAssignment.deserialize ("plain".data) = { value := "plain".data } :=
  (deserialize_is_reference_iff ("plain".data)).2 (by decide)

/-- C7: `FlowInputAssignment.deserialize` strips the first matching prefix
(`"flow."` checked before the legacy `"inputs."`), records it, and raises on
a string matching no recognized prefix. -/
theorem flow_input_deserialize_cases (v : Str) :
    (FLOW_INPUT_PREFIX_VAL.isPrefixOf v = true →
      FlowInputAssignment.deserialize v =
        Except.ok
          { value := v.drop FLOW_INPUT_PREFIX_VAL.length,
            value_type := .FLOW_INPUT, pfx := some FLOW_INPUT_PREFIX_VAL })
    ∧ (FLOW_INPUT_PREFIX_VAL.isPrefixOf v = false →
        ("inputs.".data).isPrefixOf v = true →
      FlowInputAssignment.deserialize v =
        Except.ok
          { value := v.drop ("inputs.".data).length,
            value_type := .FLOW_INPUT, pfx := some ("inputs.".data) })
    ∧ (FlowInputAssignment.is_flow_input v = false →
      FlowInputAssignment.deserialize v =
        Except.error ("Unexpected flow input value ".data ++ v)) := by
  refine ⟨fun h1 => ?_, fun h1 h2 => ?_, fun h => ?_⟩
  · unfold FlowInputAssignment.deserialize FlowInputAssignment.tryDeserialize
      FLOW_INPUT_PREFIXES
    rw [FlowInputAssignment.firstMatching, if_pos h1]
  · unfold FlowInputAssignment.deserialize FlowInputAssignment.tryDeserialize
      FLOW_INPUT_PREFIXES
    rw [FlowInputAssignment.firstMatching,
      if_neg (by rw [h1]; exact Bool.false_ne_true),
      FlowInputAssignment.firstMatching, if_pos h2]
  · have h1 : FLOW_INPUT_PREFIX_VAL.isPrefixOf v = false := by
      by_contra hc
      rw [Bool.not_eq_false] at hc
      simp [FlowInputAssignment.is_flow_input, FLOW_INPUT_PREFIXES, hc] at h
    have h2 : ("inputs.".data).isPrefixOf v = false := by
      by_contra hc
      rw [Bool.not_eq_false] at hc
      simp [FlowInputAssignment.is_flow_input, FLOW_INPUT_PREFIXES, hc] at h
    unfold FlowInputAssignment.deserialize FlowInputAssignment.tryDeserialize
      FLOW_INPUT_PREFIXES
    rw [FlowInputAssignment.firstMatching,
      if_neg (by rw [h1]; exact Bool.false_ne_true),
      FlowInputAssignment.firstMatching,
      if_neg (by rw [h2]; exact Bool.false_ne_true),
      FlowInputAssignment.firstMatching]

/-- Witness for C7 at concrete inputs: the canonical prefix, the legacy
prefix, and an unrecognized prefix. -/
theorem flow_input_deserialize_cases_witness :
    FlowInputAssignment.deserialize ("flow.topic".data) =
        Except.ok
          { value := "topic".data, value_type := .FLOW_INPUT,
            pfx := some FLOW_INPUT_PREFIX_VAL } ∧
      FlowInputAssignment.deserialize ("inputs.topic".data) =
        Except.ok
          { value := "topic".data, value_type := .FLOW_INPUT,
            pfx := some ("inputs.".data) } ∧
      FlowInputAssignment.deserialize ("other.topic".data) =
        Except.error ("Unexpected flow input value other.topic".data) :=
  ⟨(flow_input_deserialize_cases ("flow.topic".data)).1 (by decide),
    (flow_input_deserialize_cases ("inputs.topic".data)).2.1 (by decide) (by decide),
    (flow_input_deserialize_cases ("other.topic".data)).2.2 (by decide)⟩

/-- C10: string-level serialization normalizes the legacy prefix — for every
name `x`, serializing the assignment deserialized from `"${inputs.x}"`
yields `"${flow.x}"`. -/
theorem serialize_deserialize_legacy_prefix_normalizes (x : Str) :
    InputAssignment.serialize
        (InputAssignment.deserialize ("$\x7binputs.".data ++ x ++ "\x7d".data)) =
      "$\x7bflow.".data ++ x ++ "\x7d".data := by
  have harg : "$\x7binputs.".data ++ x ++ "\x7d".data =
      '$' :: '{' :: (("inputs.".data ++ x) ++ ['}']) := by
    rw [data_dollar_brace_inputs, data_close_brace]
    simp [List.append_assoc]
  rw [harg, deserialize_wrap]
  unfold InputAssignment.deserialize_reference
  rw [tryDeserialize_inputs_append x]
  show InputAssignment.serialize
      { value := x, value_type := .FLOW_INPUT, pfx := some ("inputs.".data) } =
    "$\x7bflow.".data ++ x ++ "\x7d".data
  unfold InputAssignment.serialize
  rw [if_pos rfl, data_dollar_brace_flow, data_dollar_brace, data_close_brace]
  show ['$', '{'] ++ "flow.".data ++ x ++ ['}'] = '$' :: '{' :: ("flow.".data ++ (x ++ ['}']))
  simp [List.append_assoc]

/-! ### Round trip (C2) -/

theorem dnr_append_two (v sec : Str) (hv : dotless v) (hs : dotless sec) :
    InputAssignment.deserialize_node_reference (v ++ '.' :: sec) =
      { value := v, value_type := .NODE_REFERENCE, section_ := sec } := by
  unfold InputAssignment.deserialize_node_reference
  rw [if_pos (show '.' ∈ v ++ '.' :: sec by simp)]
  simp only [splitFirst_append_dot v sec hv]
  rw [if_neg hs]

theorem dnr_append_three (v sec pr : Str) (hv : dotless v) (hs : dotless sec) :
    InputAssignment.deserialize_node_reference (v ++ '.' :: (sec ++ '.' :: pr)) =
      { value := v, value_type := .NODE_REFERENCE, section_ := sec, property := pr } := by
  unfold InputAssignment.deserialize_node_reference
  rw [if_pos (show '.' ∈ v ++ '.' :: (sec ++ '.' :: pr) by simp)]
  simp only [splitFirst_append_dot v _ hv]
  rw [if_pos (show '.' ∈ sec ++ '.' :: pr by simp)]
  simp only [splitFirst_append_dot sec pr hs]

/-- Any flow-input assignment (whatever recorded prefix) re-deserializes to
a flow input with the same value and the canonical prefix recorded. -/
theorem roundtrip_flow_input (x : Str) (pf : Option Str) :
    InputAssignment.deserialize
        (InputAssignment.serialize { value := x, value_type := .FLOW_INPUT, pfx := pf }) =
      { value := x, value_type := .FLOW_INPUT, pfx := some FLOW_INPUT_PREFIX_VAL } := by
  unfold InputAssignment.serialize
  rw [if_pos rfl]
  have harg : "$\x7b".data ++ FLOW_INPUT_PREFIX_VAL ++ x ++ "\x7d".data =
      '$' :: '{' :: ((FLOW_INPUT_PREFIX_VAL ++ x) ++ ['}']) := by
    rw [data_dollar_brace, data_close_brace]
    simp [List.append_assoc]
  rw [harg, deserialize_wrap]
  unfold InputAssignment.deserialize_reference
  rw [tryDeserialize_flow_append x]

/-- A node reference with dot-free node name and section, whose node name is
not a flow-input prefix word, re-deserializes to itself. -/
theorem roundtrip_node_reference (v sec pr : Str) (hv : dotless v) (hs : dotless sec)
    (hf : v ≠ "flow".data) (hi : v ≠ "inputs".data) :
    InputAssignment.deserialize
        (InputAssignment.serialize
          { value := v, value_type := .NODE_REFERENCE, section_ := sec, property := pr }) =
      { value := v, value_type := .NODE_REFERENCE, section_ := sec, property := pr } := by
  unfold InputAssignment.serialize
  rw [if_neg (by simp), if_pos rfl]
  by_cases hp : pr = []
  · subst hp
    rw [if_neg (by simp)]
    have harg : "$\x7b".data ++ v ++ ".".data ++ sec ++ "\x7d".data =
        '$' :: '{' :: ((v ++ '.' :: sec) ++ ['}']) := by
      rw [data_dollar_brace, data_dot, data_close_brace]
      simp [List.append_assoc]
    rw [harg, deserialize_wrap]
    unfold InputAssignment.deserialize_reference
    rw [tryDeserialize_node_append v sec hv hf hi]
    exact dnr_append_two v sec hv hs
  · rw [if_pos (by simpa using hp)]
    have harg : "$\x7b".data ++ v ++ ".".data ++ sec ++ ".".data ++ pr ++ "\x7d".data =
        '$' :: '{' :: ((v ++ '.' :: (sec ++ '.' :: pr)) ++ ['}']) := by
      rw [data_dollar_brace, data_dot, data_close_brace]
      simp [List.append_assoc]
    rw [harg, deserialize_wrap]
    unfold InputAssignment.deserialize_reference
    rw [tryDeserialize_node_append v (sec ++ '.' :: pr) hv hf hi]
    exact dnr_append_three v sec pr hv hs

/-- The possible outcomes of `InputAssignment.deserialize`: the literal echo
of the input, a flow input produced by some recognized prefix, or a node
reference whose node name and section are dot-free. -/
theorem deserialize_shapes (s : Str) :
    InputAssignment.deserialize s = { value := s } ∨
    (∃ x p, p ∈ FLOW_INPUT_PREFIXES ∧
      InputAssignment.deserialize s =
        { value := x, value_type := .FLOW_INPUT, pfx := some p }) ∨
    (∃ v sec pr, dotless v ∧ dotless sec ∧
      InputAssignment.deserialize s =
        { value := v, value_type := .NODE_REFERENCE, section_ := sec, property := pr }) := by
  rcases deserialize_eq_of_shape s with ⟨_, he⟩ | ⟨_, he⟩
  · exact Or.inl he
  · rw [he]
    unfold InputAssignment.deserialize_reference
    cases h : FlowInputAssignment.tryDeserialize ((s.drop 2).dropLast) with
    | some a =>
      obtain ⟨p, hp, rfl⟩ := firstMatching_shape h
      exact Or.inr (Or.inl ⟨_, p, hp, rfl⟩)
    | none =>
      obtain ⟨v, sec, pr, h1, h2, hd⟩ := dnr_shape ((s.drop 2).dropLast)
      exact Or.inr (Or.inr ⟨v, sec, pr, h1, h2, hd⟩)

/-- Equivalence of input assignments in the sense of the round-trip claim:
same `value_type`, `value`, `section` and `property` (the recorded prefix of
a flow input is not part of the comparison). -/
def equivIA (a b : InputAssignment) : Prop :=
  a.value = b.value ∧ a.value_type = b.value_type ∧
    a.section_ = b.section_ ∧ a.property = b.property

/-- C2 (amended): for every assignment `a` produced by deserializing some
string, `deserialize(serialize(a))` is equivalent to `a` (same value_type,
value, section, property) — except when `a` is a node reference whose node
name is exactly `"flow"` or `"inputs"`, in which case the serialized form
re-deserializes as a flow input (see `roundtrip_fails_on_flow_node_name`). -/
theorem deserialize_serialize_roundtrip (s : Str)
    (h : ¬ ((InputAssignment.deserialize s).value_type = .NODE_REFERENCE ∧
          ((InputAssignment.deserialize s).value = "flow".data ∨
            (InputAssignment.deserialize s).value = "inputs".data))) :
    equivIA
      (InputAssignment.deserialize (InputAssignment.serialize (InputAssignment.deserialize s)))
      (InputAssignment.deserialize s) := by
  rcases deserialize_shapes s with he | ⟨x, p, hp, he⟩ | ⟨v, sec, pr, hv, hs, he⟩
  · rw [he]
    have hser : InputAssignment.serialize { value := s } = s := rfl
    rw [hser, he]
    exact ⟨rfl, rfl, rfl, rfl⟩
  · rw [he, roundtrip_flow_input x (some p)]
    exact ⟨rfl, rfl, rfl, rfl⟩
  · rw [he] at h ⊢
    have h' : ¬ (v = "flow".data ∨ v = "inputs".data) := fun hor => h ⟨rfl, hor⟩
    have hf : v ≠ "flow".data := fun hh => h' (Or.inl hh)
    have hi : v ≠ "inputs".data := fun hh => h' (Or.inr hh)
    rw [roundtrip_node_reference v sec pr hv hs hf hi]
    exact ⟨rfl, rfl, rfl, rfl⟩

/-- C2 counterexample: `"${flow}"` deserializes to a node reference with
node name `"flow"` (and section `"output"`); its serialization
`"${flow.output}"` re-deserializes as a flow input with value `"output"`,
so the round trip preserves neither `value_type` nor `value`. -/
theorem roundtrip_fails_on_flow_node_name :
    (InputAssignment.deserialize ("$\x7bflow\x7d".data)).value_type = .NODE_REFERENCE ∧
      (InputAssignment.deserialize (InputAssignment.serialize
          (InputAssignment.deserialize ("$\x7bflow\x7d".data)))).value_type = .FLOW_INPUT ∧
      (InputAssignment.deserialize ("$\x7bflow\x7d".data)).value = "flow".data ∧
      (InputAssignment.deserialize (InputAssignment.serialize
          (InputAssignment.deserialize ("$\x7bflow\x7d".data)))).value = "output".data := by
  decide

/-- Witness for C2's amended theorem at a concrete node-reference input. -/
theorem deserialize_serialize_roundtrip_witness :
    equivIA
      (InputAssignment.deserialize (InputAssignment.serialize
        (InputAssignment.deserialize ("$\x7bnode1.output\x7d".data))))
      (InputAssignment.deserialize ("$\x7bnode1.output\x7d".data)) :=
  deserialize_serialize_roundtrip ("$\x7bnode1.output\x7d".data) (by decide)

/-! ### Node and condition model -/

/-- Modelled from the spec: the tool categories (`ToolType` lives in
`contracts/tool.py`, which is not part of the material).  The spec's graph
queries branch only on the `Prompt` and `LLM` categories; `python` stands
for the remaining categories ("custom" tools with inspectable signatures). -/
inductive ToolType where
  | llm
  | prompt
  | python
deriving DecidableEq, Repr

/-- `ToolSourceType`: the enum of tool source type. -/
inductive ToolSourceType where
  | Code
  | Package
  | PackageWithPrompt
deriving DecidableEq, Repr

/-- `ToolSource`.  The source stores `data.get("type", ToolSourceType.Code.value)`,
i.e. the raw tag string, so the `type` field is a string with default `"code"`. -/
structure ToolSource where
  type : Str := "code".data
  tool : Option Str := none
  path : Option Str := none
deriving DecidableEq, Repr

/-- The raw tree under a `source` key. -/
structure RawToolSource where
  type : Option Str := none
  tool : Option Str := none
  path : Option Str := none
deriving DecidableEq, Repr

/-- `ToolSource.deserialize`. -/
def ToolSource.deserialize (data : RawToolSource) : ToolSource :=
  { type := data.type.getD ("code".data), tool := data.tool, path := data.path }

/-- `ActivateCondition`. -/
structure ActivateCondition where
  condition : InputAssignment
  condition_value : Str
deriving DecidableEq, Repr

/-- The raw tree under an `activate` key: fields `whenv` and `isv` stand for
the Python keys `"when"` and `"is"`. -/
structure RawActivateCondition where
  whenv : Str
  isv : Str
deriving DecidableEq, Repr

/-- `ActivateCondition.deserialize`. -/
def ActivateCondition.deserialize (data : RawActivateCondition) : ActivateCondition :=
  { condition := InputAssignment.deserialize data.whenv, condition_value := data.isv }

/-- `SkipCondition`. -/
structure SkipCondition where
  condition : InputAssignment
  condition_value : Str
  return_value : InputAssignment
deriving DecidableEq, Repr

/-- The raw tree under a `skip` key: fields `whenv`, `isv` and `ret` stand
for the Python keys `"when"`, `"is"` and `"return"`. -/
structure RawSkipCondition where
  whenv : Str
  isv : Str
  ret : Str
deriving DecidableEq, Repr

/-- `SkipCondition.deserialize`. -/
def SkipCondition.deserialize (data : RawSkipCondition) : SkipCondition :=
  { condition := InputAssignment.deserialize data.whenv,
    condition_value := data.isv,
    return_value := InputAssignment.deserialize data.ret }

/-- `Node`: a graph vertex.  Fields with Python default `None` are `Option`;
`data.get("name")` can yield `None`, hence `name`/`tool` are optional too. -/
structure Node where
  name : Option Str
  tool : Option Str
  inputs : List (Str × InputAssignment)
  comment : Str := []
  api : Option Str := none
  provider : Option Str := none
  module : Option Str := none
  connection : Option Str := none
  aggregation : Bool := false
  enable_cache : Bool := false
  use_variants : Bool := false
  source : Option ToolSource := none
  type : Option ToolType := none
  skip : Option SkipCondition := none
  activate : Option ActivateCondition := none
deriving DecidableEq, Repr

/-- The raw key-value tree a node is deserialized from.  `aggregation`,
`reduce`, `enable_cache` and `use_variants` are optional booleans
(`data.get(key, False)`); `inputs` of `None` and an absent `inputs` both
read back as the empty mapping (`data.get("inputs") or {}`), so a single
list field models them.  The `type` tag is stored already parsed: the
string-to-`ToolType` conversion lives in the absent `tool.py` and rejects
unknown tags with its own error, which is not the conflict error studied
here. -/
structure RawNode where
  name : Option Str := none
  tool : Option Str := none
  inputs : List (Str × Str) := []
  comment : Option Str := none
  api : Option Str := none
  provider : Option Str := none
  module : Option Str := none
  connection : Option Str := none
  aggregation : Option Bool := none
  reduce : Option Bool := none
  enable_cache : Option Bool := none
  use_variants : Option Bool := none
  source : Option RawToolSource := none
  type : Option ToolType := none
  skip : Option RawSkipCondition := none
  activate : Option RawActivateCondition := none
deriving DecidableEq, Repr

/-- The `NodeConditionConflict` error, carrying the offending node's name. -/
inductive NodeError where
  | conflict (name : Option Str)
deriving DecidableEq, Repr

/-- `Node.deserialize`. -/
def Node.deserialize (data : RawNode) : Except NodeError Node :=
  let node : Node :=
    { name := data.name
      tool := data.tool
      inputs := data.inputs.map (fun kv => (kv.1, InputAssignment.deserialize kv.2))
      comment := data.comment.getD []
      api := data.api
      provider := data.provider
      module := data.module
      connection := data.connection
      aggregation := data.aggregation.getD false || data.reduce.getD false
      enable_cache := data.enable_cache.getD false
      use_variants := data.use_variants.getD false
      source := data.source.map ToolSource.deserialize
      type := data.type
      skip := data.skip.map SkipCondition.deserialize
      activate := data.activate.map ActivateCondition.deserialize }
  if node.skip.isSome ∧ node.activate.isSome then
    Except.error (NodeError.conflict node.name)
  else
    Except.ok node

/-- C5: `Node.deserialize` raises the node-condition-conflict error naming
the offending node exactly when the raw tree holds both a `skip` and an
`activate` key; with at most one of the two it constructs a node. -/
theorem node_deserialize_conflict_iff (data : RawNode) :
    (Node.deserialize data = Except.error (NodeError.conflict data.name) ↔
      data.skip.isSome = true ∧ data.activate.isSome = true)
    ∧ (¬ (data.skip.isSome = true ∧ data.activate.isSome = true) →
      ∃ n, Node.deserialize data = Except.ok n) := by
  unfold Node.deserialize
  by_cases h : (data.skip.map SkipCondition.deserialize).isSome = true ∧
      (data.activate.map ActivateCondition.deserialize).isSome = true
  · rw [if_pos h]
    refine ⟨⟨fun _ => ?_, fun _ => rfl⟩, fun hc => ?_⟩
    · simpa [Option.isSome_map] using h
    · exact absurd (by simpa [Option.isSome_map] using h) hc
  · rw [if_neg h]
    refine ⟨⟨fun hh => ?_, fun hh => ?_⟩, fun _ => ⟨_, rfl⟩⟩
    · exact absurd hh (by simp)
    · exact absurd (by simpa [Option.isSome_map] using hh) h

/-- Witness for C5: a tree with only a `skip` key constructs a node, and a
tree with both keys fails with the conflict error. -/
theorem node_deserialize_conflict_iff_witness :
    (∃ n, Node.deserialize
        { name := some "a".data,
          skip := some { whenv := "x".data, isv := "y".data, ret := "z".data } } =
      Except.ok n) ∧
    Node.deserialize
        { name := some "a".data,
          skip := some { whenv := "x".data, isv := "y".data, ret := "z".data },
          activate := some { whenv := "x".data, isv := "y".data } } =
      Except.error (NodeError.conflict (some "a".data)) :=
  ⟨(node_deserialize_conflict_iff _).2 (by decide),
    (node_deserialize_conflict_iff _).1.mpr (by decide)⟩

/-! ### Node serialization (C8) -/

/-- A value in the dict produced by `Node.serialize`.  `asdict` renders
nested dataclasses as nested dicts; this embedding keeps them as opaque
(injectively wrapped) structured values, since the claims only inspect the
top-level boolean keys.  (A nested dataclass all of whose fields are falsy
would render as `{}` and be dropped by the sparse filter in Python; none of
the wrapped kinds is inspected by the verified claims.) -/
inductive PyVal where
  | str (s : Str)
  | bool (b : Bool)
  | strMap (m : List (Str × Str))
  | assignMap (m : List (Str × InputAssignment))
  | sourceVal (ts : ToolSource)
  | typeVal (t : ToolType)
  | skipVal (sc : SkipCondition)
  | activateVal (ac : ActivateCondition)
deriving DecidableEq, Repr

/-- `Node.serialize`: `asdict` with a falsy-dropping dict factory (fields in
declaration order), then `inputs` overwritten with the per-assignment string
serialization, then — when `aggregation` is set — both `aggregation` and the
legacy `reduce` key forced to `True`. -/
def Node.serialize (n : Node) : List (Str × PyVal) :=
  let optStr (k : Str) (v : Option Str) : List (Str × PyVal) :=
    match v with
    | none => []
    | some s => if s ≠ [] then [(k, PyVal.str s)] else []
  let base : List (Str × PyVal) :=
    optStr ("name".data) n.name ++
    optStr ("tool".data) n.tool ++
    (if n.inputs ≠ [] then [("inputs".data, PyVal.assignMap n.inputs)] else []) ++
    (if n.comment ≠ [] then [("comment".data, PyVal.str n.comment)] else []) ++
    optStr ("api".data) n.api ++
    optStr ("provider".data) n.provider ++
    optStr ("module".data) n.module ++
    optStr ("connection".data) n.connection ++
    (if n.aggregation then [("aggregation".data, PyVal.bool true)] else []) ++
    (if n.enable_cache then [("enable_cache".data, PyVal.bool true)] else []) ++
    (if n.use_variants then [("use_variants".data, PyVal.bool true)] else []) ++
    (match n.source with
      | none => []
      | some ts => [("source".data, PyVal.sourceVal ts)]) ++
    (match n.type with
      | none => []
      | some t => [("type".data, PyVal.typeVal t)]) ++
    (match n.skip with
      | none => []
      | some sc => [("skip".data, PyVal.skipVal sc)]) ++
    (match n.activate with
      | none => []
      | some ac => [("activate".data, PyVal.activateVal ac)])
  let data := aset ("inputs".data)
    (PyVal.strMap (n.inputs.map (fun kv => (kv.1, kv.2.serialize)))) base
  if n.aggregation then
    aset ("reduce".data) (PyVal.bool true) (aset ("aggregation".data) (PyVal.bool true) data)
  else data

theorem alookup_aset_self (k : Str) (v : α) (l : List (Str × α)) :
    alookup k (aset k v l) = some v := by
  induction l with
  | nil => simp [aset, alookup]
  | cons p rest ih =>
    by_cases h : p.1 = k
    · simp [aset, h, alookup]
    · obtain ⟨k', v'⟩ := p
      simp only at h
      simp [aset, alookup, h, ih]

theorem alookup_aset_ne (k k' : Str) (v : α) (l : List (Str × α)) (h : k' ≠ k) :
    alookup k (aset k' v l) = alookup k l := by
  induction l with
  | nil => simp [aset, alookup, h]
  | cons p rest ih =>
    obtain ⟨q, w⟩ := p
    by_cases hp : q = k'
    · subst hp
      simp [aset, alookup, h]
    · simp [aset, alookup, hp, ih]

deriving instance DecidableEq for Except

/-- C8: deserialization ORs the `aggregation` and legacy `reduce` keys into
the aggregation flag, and serialization of an aggregation node emits both
`aggregation: true` and `reduce: true`. -/
theorem node_aggregation_reduce_sync (data : RawNode) (n : Node) :
    (Node.deserialize data = Except.ok n →
      n.aggregation = (data.aggregation.getD false || data.reduce.getD false))
    ∧ (n.aggregation = true →
      alookup ("aggregation".data) n.serialize = some (PyVal.bool true) ∧
        alookup ("reduce".data) n.serialize = some (PyVal.bool true)) := by
  constructor
  · intro h
    unfold Node.deserialize at h
    by_cases hc : (data.skip.map SkipCondition.deserialize).isSome = true ∧
        (data.activate.map ActivateCondition.deserialize).isSome = true
    · rw [if_pos hc] at h
      exact absurd h (by simp)
    · rw [if_neg hc] at h
      rw [← Except.ok.inj h]
  · intro ha
    simp only [Node.serialize]
    rw [if_pos ha]
    constructor
    · rw [alookup_aset_ne _ _ _ _ (by decide), alookup_aset_self]
    · rw [alookup_aset_self]

/-- Witness for C8: a raw tree carrying only the legacy `reduce: true` key
yields an aggregation node, whose serialization emits both keys. -/
theorem node_aggregation_reduce_sync_witness :
    ({ name := none, tool := none, inputs := [], aggregation := true } : Node).aggregation =
        (({ reduce := some true } : RawNode).aggregation.getD false ||
          ({ reduce := some true } : RawNode).reduce.getD false) ∧
      alookup ("aggregation".data)
          (Node.serialize { name := none, tool := none, inputs := [], aggregation := true }) =
        some (PyVal.bool true) ∧
      alookup ("reduce".data)
          (Node.serialize { name := none, tool := none, inputs := [], aggregation := true }) =
        some (PyVal.bool true) :=
  ⟨(node_aggregation_reduce_sync { reduce := some true }
      { name := none, tool := none, inputs := [], aggregation := true }).1 (by decide),
    (node_aggregation_reduce_sync { reduce := some true }
      { name := none, tool := none, inputs := [], aggregation := true }).2 (by decide)⟩

/-! ### Flow model -/

/-- `FlowInputDefinition`.  The `type` tag is a value-type tag string
(`ValueType` lives in the absent `tool.py`). -/
structure FlowInputDefinition where
  type : Str
  default : Option Str := none
  description : Option Str := none
  enum : Option (List Str) := none
  is_chat_input : Bool := false
  is_chat_history : Option Bool := none
deriving DecidableEq, Repr

/-- `FlowOutputDefinition`. -/
structure FlowOutputDefinition where
  type : Str
  reference : InputAssignment
  description : Str := []
  evaluation_only : Bool := false
  is_chat_output : Bool := false
deriving DecidableEq, Repr

/-- `NodeVariant`. -/
structure NodeVariant where
  node : Node
  description : Str := []
deriving DecidableEq, Repr

/-- `NodeVariants`: the variants of a node. -/
structure NodeVariants where
  default_variant_id : Str
  variants : List (Str × NodeVariant)
deriving DecidableEq, Repr

/-- The variant table `node_variants` of a flow; Python's `None` and `{}`
are both modelled by the empty list (the source only tests truthiness). -/
abbrev VariantTable := List (Str × NodeVariants)

/-- Modelled from the spec: the tool declaration interface (`Tool` lives in
the absent `tool.py`) — a name, and per input name the list of acceptable
type tag strings (enum tags are already rendered as their string values, as
the source does before comparing). -/
structure Tool where
  name : Str
  inputs : List (Str × List Str) := []
deriving DecidableEq, Repr

/-- `Flow`: the aggregate root (named `FlowGraph` here; Mathlib already
declares a root-level `Flow`). -/
structure FlowGraph where
  id : Str
  name : Str
  nodes : List Node
  inputs : List (Str × FlowInputDefinition)
  outputs : List (Str × FlowOutputDefinition)
  tools : List Tool
  node_variants : VariantTable := []
deriving DecidableEq, Repr

/-- `FlowGraph.get_node`: the first node with the given name, if any. -/
def FlowGraph.get_node (f : FlowGraph) (node_name : Str) : Option Node :=
  f.nodes.find? (fun n => decide (n.name = some node_name))

/-- `FlowGraph.get_tool`: the first catalog tool whose name equals the given
(possibly absent) tool identifier. -/
def FlowGraph.get_tool (f : FlowGraph) (tool_name : Option Str) : Option Tool :=
  f.tools.find? (fun t => decide (some t.name = tool_name))

/-- `FlowGraph._apply_default_node_variant`.  The Python method returns the
default variant's node after assigning `node.name` to it in place; the
assignment mutates the stored variant table, so the embedding returns the
updated table alongside the returned node. -/
def FlowGraph.apply_default_node_variant (node : Node) (node_variants : VariantTable) :
    Node × VariantTable :=
  if node_variants = [] then (node, node_variants)
  else
    match node.name with
    | none => (node, node_variants)
    | some nm =>
      match alookup nm node_variants with
      | none => (node, node_variants)
      | some node_variant =>
        match alookup node_variant.default_variant_id node_variant.variants with
        | none => (node, node_variants)
        | some default_variant =>
          let newNode := { default_variant.node with name := some nm }
          (newNode,
            aset nm
              { node_variant with
                variants := aset node_variant.default_variant_id
                  { default_variant with node := newNode } node_variant.variants }
              node_variants)

/-- Default-variant resolution as applied at every call site
(`_apply_default_node_variants` and `get_connection_names`): nodes without
`use_variants` are passed through untouched, the rest go through
`_apply_default_node_variant`.  This is the value view; the table effect is
studied separately. -/
def FlowGraph.resolve_default_variant (node : Node) (tbl : VariantTable) : Node :=
  if node.use_variants then (FlowGraph.apply_default_node_variant node tbl).1 else node

/-- C4: default-variant resolution is the identity when `use_variants` is
unset, the table is absent/empty, the table has no entry for the node's
name, or the entry has no variant under its own `default_variant_id`;
otherwise it returns the default variant's node definition with only its
`name` replaced by the original node's name. -/
theorem default_variant_resolution_cases (n : Node) (tbl : VariantTable) :
    (n.use_variants = false → FlowGraph.resolve_default_variant n tbl = n)
    ∧ (tbl = [] → FlowGraph.resolve_default_variant n tbl = n)
    ∧ (n.name = none → FlowGraph.resolve_default_variant n tbl = n)
    ∧ (∀ nm, n.name = some nm → alookup nm tbl = none →
        FlowGraph.resolve_default_variant n tbl = n)
    ∧ (∀ nm nv, n.name = some nm → alookup nm tbl = some nv →
        alookup nv.default_variant_id nv.variants = none →
        FlowGraph.resolve_default_variant n tbl = n)
    ∧ (∀ nm nv dv, n.use_variants = true → n.name = some nm →
        alookup nm tbl = some nv →
        alookup nv.default_variant_id nv.variants = some dv →
        FlowGraph.resolve_default_variant n tbl = { dv.node with name := n.name }) := by
  refine ⟨fun h => ?_, fun h => ?_, fun h => ?_, fun nm h1 h2 => ?_,
    fun nm nv h1 h2 h3 => ?_, fun nm nv dv hu h1 h2 h3 => ?_⟩
  · simp [FlowGraph.resolve_default_variant, h]
  · subst h
    simp [FlowGraph.resolve_default_variant, FlowGraph.apply_default_node_variant]
  · by_cases hu : n.use_variants
    · simp [FlowGraph.resolve_default_variant, hu, FlowGraph.apply_default_node_variant, h]
    · simp [FlowGraph.resolve_default_variant, hu]
  · by_cases hu : n.use_variants
    · have htne : tbl ≠ [] ∨ tbl = [] := (em _).symm
      rcases htne with htne | rfl
      · simp [FlowGraph.resolve_default_variant, hu, FlowGraph.apply_default_node_variant,
          htne, h1, h2]
      · simp [FlowGraph.resolve_default_variant, hu, FlowGraph.apply_default_node_variant]
    · simp [FlowGraph.resolve_default_variant, hu]
  · by_cases hu : n.use_variants
    · have htne : tbl ≠ [] := by
        intro hh
        subst hh
        simp [alookup] at h2
      simp [FlowGraph.resolve_default_variant, hu, FlowGraph.apply_default_node_variant,
        htne, h1, h2, h3]
    · simp [FlowGraph.resolve_default_variant, hu]
  · have htne : tbl ≠ [] := by
      intro hh
      subst hh
      simp [alookup] at h2
    simp [FlowGraph.resolve_default_variant, hu, FlowGraph.apply_default_node_variant,
      htne, h1, h2, h3]

/-- Witness for C4: a variant-bearing node picks up the default variant's
tool `"X"` while keeping its own name; with an empty table the same node is
returned unchanged. -/
theorem default_variant_resolution_cases_witness :
    FlowGraph.resolve_default_variant
        { name := some "a".data, tool := some "t0".data, inputs := [], use_variants := true }
        [("a".data,
          { default_variant_id := "v1".data,
            variants := [("v1".data,
              { node := { name := some "b".data, tool := some "X".data, inputs := [] } })] })] =
      { name := some "a".data, tool := some "X".data, inputs := [] } ∧
    FlowGraph.resolve_default_variant
        { name := some "a".data, tool := some "t0".data, inputs := [], use_variants := true }
        [] =
      { name := some "a".data, tool := some "t0".data, inputs := [], use_variants := true } :=
  ⟨(default_variant_resolution_cases _ _).2.2.2.2.2 ("a".data)
      { default_variant_id := "v1".data,
        variants := [("v1".data,
          { node := { name := some "b".data, tool := some "X".data, inputs := [] } })] }
      { node := { name := some "b".data, tool := some "X".data, inputs := [] } }
      (by decide) (by decide) (by decide) (by decide),
    (default_variant_resolution_cases _ _).2.1 rfl⟩

/-! ### Node overrides (C6) -/

theorem splitAll_eq_single (a : Str) (ha : dotless a) : splitAll '.' a = [a] := by
  induction a with
  | nil => rfl
  | cons x xs ih =>
    have hx : x ≠ '.' := fun h => ha (by simp [dotless, h])
    have ha' : dotless xs := fun hm => ha (by simp [dotless, hm])
    simp [splitAll, hx, ih ha']

theorem splitAll_pair (a b : Str) (ha : dotless a) (hb : dotless b) :
    splitAll '.' (a ++ '.' :: b) = [a, b] := by
  induction a with
  | nil => simp [splitAll, splitAll_eq_single b hb]
  | cons x xs ih =>
    have hx : x ≠ '.' := fun h => ha (by simp [dotless, h])
    have ha' : dotless xs := fun hm => ha (by simp [dotless, hm])
    simp [List.cons_append, splitAll, hx, ih ha']

/-- Apply `g` to the first node carrying the given name (the Python code
mutates the object returned by `get_node`, which is that first node). -/
def updateNodeNamed (nodes : List Node) (nm : Str) (g : Node → Node) : List Node :=
  match nodes with
  | [] => []
  | n :: rest => if n.name = some nm then g n :: rest else n :: updateNodeNamed rest nm g

/-- One entry of `Flow._apply_node_overrides`: split the key on `.`
(`node_name, input_name = key.split(".")`, a `ValueError` unless exactly two
parts), locate the node (a `ValueError` if absent), then either overwrite a
truthy `connection` field or set the named input to a literal assignment. -/
def FlowGraph.override_step (fl : FlowGraph) (key value : Str) : Except Str FlowGraph :=
  match splitAll '.' key with
  | [node_name, input_name] =>
    match fl.get_node node_name with
    | none =>
      Except.error ("Cannot find node ".data ++ node_name ++ " in flow ".data ++ fl.name)
    | some node =>
      if optStrTruthy node.connection = true ∧ input_name = "connection".data then
        let nodes' := updateNodeNamed fl.nodes node_name
          (fun n => { n with connection := some value })
        Except.ok { fl with nodes := nodes' }
      else
        let nodes' := updateNodeNamed fl.nodes node_name
          (fun n => { n with inputs := aset input_name { value := value } n.inputs })
        Except.ok { fl with nodes := nodes' }
  | _ => Except.error ("not enough values to unpack".data)

/-- `Flow._apply_node_overrides`: process the entries in order; in-place
mutation of the node list is rendered as returning the updated flow. -/
def FlowGraph.apply_node_overrides (f : FlowGraph) :
    List (Str × Str) → Except Str FlowGraph
  | [] => Except.ok f
  | kv :: rest =>
    match FlowGraph.override_step f kv.1 kv.2 with
    | Except.error e => Except.error e
    | Except.ok fl' => fl'.apply_node_overrides rest

/-- One override entry as the claim words it, over an already-split
`(node_name, field)` key: locate the node by name (error if absent); if the
field name is `connection` and the located node's connection field is
already set (truthy), overwrite it with the value; in every other case use
the field name as an input name and replace/insert that input as a literal
`InputAssignment` holding the value. -/
def overrideStepSpec (fl : FlowGraph) (node_name field value : Str) :
    Except Str FlowGraph :=
  match fl.get_node node_name with
  | none =>
    Except.error ("Cannot find node ".data ++ node_name ++ " in flow ".data ++ fl.name)
  | some node =>
    if optStrTruthy node.connection = true ∧ field = "connection".data then
      let nodes' := updateNodeNamed fl.nodes node_name
        (fun n => { n with connection := some value })
      Except.ok { fl with nodes := nodes' }
    else
      let nodes' := updateNodeNamed fl.nodes node_name
        (fun n => { n with inputs := aset field { value := value } n.inputs })
      Except.ok { fl with nodes := nodes' }

/-- Node-override application as the claim describes it, entry by entry over
`(node_name, field) → value` pairs, the same flow threaded through. -/
def applyNodeOverridesSpec (f : FlowGraph) :
    List ((Str × Str) × Str) → Except Str FlowGraph
  | [] => Except.ok f
  | e :: rest =>
    match overrideStepSpec f e.1.1 e.1.2 e.2 with
    | Except.error msg => Except.error msg
    | Except.ok fl' => applyNodeOverridesSpec fl' rest

theorem override_step_eq_spec (fl : FlowGraph) (a b v : Str)
    (ha : dotless a) (hb : dotless b) :
    FlowGraph.override_step fl (a ++ '.' :: b) v = overrideStepSpec fl a b v := by
  unfold FlowGraph.override_step overrideStepSpec
  rw [splitAll_pair a b ha hb]

/-- C6: `_apply_node_overrides` on a well-formed override mapping (keys of
the form `<node_name>.<field>` with dot-free parts) behaves exactly as the
claim describes: each entry locates the node by name (error when absent),
overwrites a truthy `connection` field when the field name is `connection`,
and otherwise replaces/inserts the named input as a literal assignment,
with the updated flow returned. -/
theorem apply_node_overrides_matches_spec (f : FlowGraph)
    (m : List ((Str × Str) × Str))
    (h : ∀ e ∈ m, dotless e.1.1 ∧ dotless e.1.2) :
    f.apply_node_overrides (m.map (fun e => (e.1.1 ++ '.' :: e.1.2, e.2))) =
      applyNodeOverridesSpec f m := by
  induction m generalizing f with
  | nil => rfl
  | cons e rest ih =>
    have he := h e (by simp)
    have hrest : ∀ x ∈ rest, dotless x.1.1 ∧ dotless x.1.2 :=
      fun x hx => h x (by simp [hx])
    show (match FlowGraph.override_step f (e.1.1 ++ '.' :: e.1.2) e.2 with
          | Except.error msg => Except.error msg
          | Except.ok fl' => fl'.apply_node_overrides
              (rest.map (fun x => (x.1.1 ++ '.' :: x.1.2, x.2)))) =
        (match overrideStepSpec f e.1.1 e.1.2 e.2 with
          | Except.error msg => Except.error msg
          | Except.ok fl' => applyNodeOverridesSpec fl' rest)
    rw [override_step_eq_spec f e.1.1 e.1.2 e.2 he.1 he.2]
    cases hs : overrideStepSpec f e.1.1 e.1.2 e.2 with
    | error msg => rfl
    | ok fl' => exact ih fl' hrest

/-- Witness for C6 at a concrete flow and override mapping. -/
theorem apply_node_overrides_matches_spec_witness :
    FlowGraph.apply_node_overrides
        { id := [], name := "f".data,
          nodes := [
            { name := some "A".data, tool := none, inputs := [],
              connection := some "conn".data }],
          inputs := [], outputs := [], tools := [] }
        ([(("A".data, "connection".data), "newconn".data)].map
          (fun e => (e.1.1 ++ '.' :: e.1.2, e.2))) =
      applyNodeOverridesSpec
        { id := [], name := "f".data,
          nodes := [
            { name := some "A".data, tool := none, inputs := [],
              connection := some "conn".data }],
          inputs := [], outputs := [], tools := [] }
        [(("A".data, "connection".data), "newconn".data)] :=
  apply_node_overrides_matches_spec _ _ (by decide)

example :
    FlowGraph.apply_node_overrides
        { id := [], name := "f".data,
          nodes := [
            { name := some "A".data, tool := none, inputs := [],
              connection := some "conn".data }],
          inputs := [], outputs := [], tools := [] }
        [("A.connection".data, "newconn".data)] =
      Except.ok
        { id := [], name := "f".data,
          nodes := [
            { name := some "A".data, tool := none, inputs := [],
              connection := some "newconn".data }],
          inputs := [], outputs := [], tools := [] } := by decide

example :
    FlowGraph.apply_node_overrides
        { id := [], name := "f".data,
          nodes := [{ name := some "A".data, tool := none, inputs := [] }],
          inputs := [], outputs := [], tools := [] }
        [("A.x".data, "v".data)] =
      Except.ok
        { id := [], name := "f".data,
          nodes := [
            { name := some "A".data, tool := none,
              inputs := [("x".data, { value := "v".data })] }],
          inputs := [], outputs := [], tools := [] } := by decide

example :
    FlowGraph.apply_node_overrides
        { id := [], name := "f".data,
          nodes := [{ name := some "A".data, tool := none, inputs := [] }],
          inputs := [], outputs := [], tools := [] }
        [("B.x".data, "v".data)] =
      Except.error ("Cannot find node B in flow f".data) := by decide

/-! ### Connection resolution (C3) -/

/-- Python `str.lower`. -/
def strLower (s : Str) : Str := s.map Char.toLower

/-- Modelled from the spec: the fixed set of plain value-type tags
("string/number/bool/list/object") — the value set of the `ValueType` enum
from the absent `tool.py`.  Both the code-side and the claim-side
definitions below consult this same set, so the claims do not depend on its
exact contents. -/
def valueTypeTags : List Str :=
  ["string".data, "number".data, "bool".data, "list".data, "object".data]

/-- `Flow._get_connection_name_from_tool`: for each tool input whose
acceptable type tags are not all plain value types, record the node's
assignment for that key when it is a literal.  The Python loop fills a dict
keyed by tool input names; tool inputs are themselves a dict, so every key
is fresh and the dict is this `filterMap`. -/
def FlowGraph.get_connection_name_from_tool (tool : Tool) (node : Node) :
    List (Str × Str) :=
  tool.inputs.filterMap (fun kv =>
    if kv.2.all (fun typ => decide (strLower typ ∈ valueTypeTags)) then none
    else
      match alookup kv.1 node.inputs with
      | some ia => if ia.value_type = .LITERAL then some (kv.1, ia.value) else none
      | none => none)

/-- The normalization comprehension at the head of `get_connection_names`
(`[... _apply_default_node_variant(node, ...) if node.use_variants else node ...]`),
threading the variant-table state the in-place name assignment mutates. -/
def normalizeNodes : List Node → VariantTable → List Node × VariantTable
  | [], t => ([], t)
  | n :: ns, t =>
    if n.use_variants then
      let p := FlowGraph.apply_default_node_variant n t
      let q := normalizeNodes ns p.2
      (p.1 :: q.1, q.2)
    else
      let q := normalizeNodes ns t
      (n :: q.1, q.2)

/-- The loop body of `get_connection_names`: a truthy `connection` field is
recorded directly; Prompt/LLM nodes contribute nothing; otherwise the tool
is looked up in the embedded catalog, then through the tool loader, and its
connection-slot values are added. -/
def nodeConnectionNames (f : FlowGraph) (loader : Node → Option Tool)
    (acc : Finset Str) (node : Node) : Finset Str :=
  if optStrTruthy node.connection then insert (node.connection.getD []) acc
  else if node.type = some ToolType.prompt ∨ node.type = some ToolType.llm then acc
  else
    match (f.get_tool node.tool).orElse (fun _ => loader node) with
    | some tool =>
        ((FlowGraph.get_connection_name_from_tool tool node).map Prod.snd).foldl
          (fun s v => insert v s) acc
    | none => acc

/-- `Flow.get_connection_names`.  The external tool loader
(`self._tool_loader.load_tool_for_node`) is the spec's collaborator
capability, passed as a function; the returned flow carries the variant
table after the normalization step's in-place name assignments. -/
def FlowGraph.get_connection_names (f : FlowGraph) (loader : Node → Option Tool) :
    Finset Str × FlowGraph :=
  let p := normalizeNodes f.nodes f.node_variants
  let names := p.1.foldl (nodeConnectionNames f loader) ∅
  (names.filter (fun item => item ≠ []), { f with node_variants := p.2 })

/-- Connection-slot values of one node against one tool signature, as the
claim words it: for each tool input whose acceptable type tags are not all
plain value types, a literal-valued node input for that key contributes its
value; node-reference (and other non-literal or missing) inputs contribute
nothing. -/
def connectionSlotValuesSpec (tool : Tool) (node : Node) : List Str :=
  tool.inputs.filterMap (fun kv =>
    if kv.2.all (fun typ => decide (strLower typ ∈ valueTypeTags)) then none
    else
      match alookup kv.1 node.inputs with
      | some ia => if ia.value_type = .LITERAL then some ia.value else none
      | none => none)

/-- Per-node contribution to the connection-name set, as the claim words
it. -/
def nodeConnectionContribSpec (f : FlowGraph) (loader : Node → Option Tool)
    (node : Node) : Finset Str :=
  if optStrTruthy node.connection then {node.connection.getD []}
  else if node.type = some ToolType.prompt ∨ node.type = some ToolType.llm then ∅
  else
    match (f.get_tool node.tool).orElse (fun _ => loader node) with
    | some tool => (connectionSlotValuesSpec tool node).toFinset
    | none => ∅

/-- Whole-flow aggregation as the claim words it: first normalize every
`use_variants` node to its default variant, then union the per-node
contributions, then drop falsy (empty) names. -/
def get_connection_names_spec (f : FlowGraph) (loader : Node → Option Tool) :
    Finset Str :=
  ((f.nodes.map (fun n => FlowGraph.resolve_default_variant n f.node_variants)).foldl
      (fun acc n => acc ∪ nodeConnectionContribSpec f loader n) ∅).filter
    (fun item => item ≠ [])

theorem foldl_insert_eq_union (l : List Str) (acc : Finset Str) :
    l.foldl (fun s v => insert v s) acc = acc ∪ l.toFinset := by
  induction l generalizing acc with
  | nil => simp
  | cons x xs ih =>
    rw [List.foldl_cons, ih (insert x acc), List.toFinset_cons]
    ext a
    simp

theorem connection_values_eq (tool : Tool) (node : Node) :
    (FlowGraph.get_connection_name_from_tool tool node).map Prod.snd =
      connectionSlotValuesSpec tool node := by
  unfold FlowGraph.get_connection_name_from_tool connectionSlotValuesSpec
  rw [List.map_filterMap]
  congr 1
  funext kv
  by_cases h1 : kv.2.all (fun typ => decide (strLower typ ∈ valueTypeTags))
  · simp [h1]
  · simp only [h1, if_false, Bool.false_eq_true]
    cases h2 : alookup kv.1 node.inputs with
    | none => rfl
    | some ia =>
      by_cases h3 : ia.value_type = .LITERAL
      · simp [h3]
      · simp [h3]

theorem nodeConnectionNames_eq (f : FlowGraph) (loader : Node → Option Tool)
    (acc : Finset Str) (node : Node) :
    nodeConnectionNames f loader acc node =
      acc ∪ nodeConnectionContribSpec f loader node := by
  unfold nodeConnectionNames nodeConnectionContribSpec
  by_cases h1 : optStrTruthy node.connection = true
  · rw [if_pos h1, if_pos h1, Finset.insert_eq, Finset.union_comm]
  · rw [if_neg h1, if_neg h1]
    by_cases h2 : node.type = some ToolType.prompt ∨ node.type = some ToolType.llm
    · rw [if_pos h2, if_pos h2, Finset.union_empty]
    · rw [if_neg h2, if_neg h2]
      cases horElse : (f.get_tool node.tool).orElse (fun _ => loader node) with
      | none =>
        show acc = acc ∪ ∅
        rw [Finset.union_empty]
      | some tool =>
        show ((FlowGraph.get_connection_name_from_tool tool node).map Prod.snd).foldl
            (fun s v => insert v s) acc =
          acc ∪ (connectionSlotValuesSpec tool node).toFinset
        rw [foldl_insert_eq_union, connection_values_eq]

theorem foldl_congr_fun {α β : Type} (g g' : β → α → β) (l : List α) (b : β)
    (h : ∀ b a, g b a = g' b a) : l.foldl g b = l.foldl g' b := by
  induction l generalizing b with
  | nil => rfl
  | cons x xs ih => rw [List.foldl_cons, List.foldl_cons, h, ih]

theorem aset_ne_nil (k : Str) (v : α) (l : List (Str × α)) : aset k v l ≠ [] := by
  cases l with
  | nil => simp [aset]
  | cons p rest =>
    obtain ⟨q, u⟩ := p
    by_cases h : q = k <;> simp [aset, h]

theorem apply_nil (n : Node) : FlowGraph.apply_default_node_variant n [] = (n, []) := by
  simp [FlowGraph.apply_default_node_variant]

theorem apply_of_name_none (n : Node) (t : VariantTable) (h : n.name = none) :
    FlowGraph.apply_default_node_variant n t = (n, t) := by
  by_cases ht : t = []
  · subst ht
    exact apply_nil n
  · simp [FlowGraph.apply_default_node_variant, ht, h]

theorem apply_of_lookup_none (n : Node) (nm : Str) (t : VariantTable)
    (h1 : n.name = some nm) (h2 : alookup nm t = none) :
    FlowGraph.apply_default_node_variant n t = (n, t) := by
  by_cases ht : t = []
  · subst ht
    exact apply_nil n
  · simp [FlowGraph.apply_default_node_variant, ht, h1, h2]

theorem apply_of_variant_none (n : Node) (nm : Str) (t : VariantTable) (nv : NodeVariants)
    (h1 : n.name = some nm) (h2 : alookup nm t = some nv)
    (h3 : alookup nv.default_variant_id nv.variants = none) :
    FlowGraph.apply_default_node_variant n t = (n, t) := by
  have ht : t ≠ [] := by
    intro hh
    subst hh
    simp [alookup] at h2
  simp [FlowGraph.apply_default_node_variant, ht, h1, h2, h3]

theorem apply_of_variant_some (n : Node) (nm : Str) (t : VariantTable)
    (nv : NodeVariants) (dv : NodeVariant)
    (h1 : n.name = some nm) (h2 : alookup nm t = some nv)
    (h3 : alookup nv.default_variant_id nv.variants = some dv) :
    FlowGraph.apply_default_node_variant n t =
      ({ dv.node with name := some nm },
        aset nm
          { nv with
            variants := aset nv.default_variant_id
              { dv with node := { dv.node with name := some nm } } nv.variants }
          t) := by
  have ht : t ≠ [] := by
    intro hh
    subst hh
    simp [alookup] at h2
  simp [FlowGraph.apply_default_node_variant, ht, h1, h2, h3]

/-- The table update performed by `_apply_default_node_variant` does not
change the node any later resolution returns: resolving against the updated
table gives the same node as resolving against the original table. -/
theorem apply_step_tblEquiv (n : Node) (t : VariantTable) (m : Node) :
    (FlowGraph.apply_default_node_variant m
        (FlowGraph.apply_default_node_variant n t).2).1 =
      (FlowGraph.apply_default_node_variant m t).1 := by
  by_cases ht : t = []
  · subst ht
    rw [apply_nil]
  · cases hname : n.name with
    | none => rw [apply_of_name_none n t hname]
    | some nm =>
      cases hl : alookup nm t with
      | none => rw [apply_of_lookup_none n nm t hname hl]
      | some nv =>
        cases hdv : alookup nv.default_variant_id nv.variants with
        | none => rw [apply_of_variant_none n nm t nv hname hl hdv]
        | some dv =>
          rw [apply_of_variant_some n nm t nv dv hname hl hdv]
          set dv' : NodeVariant :=
            { dv with node := { dv.node with name := some nm } } with hdv'def
          set nv' : NodeVariants :=
            { nv with variants := aset nv.default_variant_id dv' nv.variants } with hnv'def
          cases hmname : m.name with
          | none => rw [apply_of_name_none m _ hmname, apply_of_name_none m t hmname]
          | some k =>
            by_cases hk : k = nm
            · subst hk
              have hl' : alookup k (aset k nv' t) = some nv' := alookup_aset_self k nv' t
              have hdv2 : alookup nv'.default_variant_id nv'.variants = some dv' := by
                show alookup nv.default_variant_id
                  (aset nv.default_variant_id dv' nv.variants) = some dv'
                exact alookup_aset_self _ _ _
              rw [apply_of_variant_some m k (aset k nv' t) nv' dv' hmname hl' hdv2,
                apply_of_variant_some m k t nv dv hmname hl hdv]
            · have hkk : nm ≠ k := fun hh => hk hh.symm
              have hl2 : alookup k (aset nm nv' t) = alookup k t :=
                alookup_aset_ne k nm nv' t hkk
              cases hlk : alookup k t with
              | none =>
                rw [apply_of_lookup_none m k (aset nm nv' t) hmname (hl2.trans hlk),
                  apply_of_lookup_none m k t hmname hlk]
              | some nv2 =>
                cases hdvk : alookup nv2.default_variant_id nv2.variants with
                | none =>
                  rw [apply_of_variant_none m k (aset nm nv' t) nv2 hmname
                      (hl2.trans hlk) hdvk,
                    apply_of_variant_none m k t nv2 hmname hlk hdvk]
                | some dv2 =>
                  rw [apply_of_variant_some m k (aset nm nv' t) nv2 dv2 hmname
                      (hl2.trans hlk) hdvk,
                    apply_of_variant_some m k t nv2 dv2 hmname hlk hdvk]

/-- The normalized node list equals the pure per-node resolution against the
original table: the in-place table updates threaded through the
comprehension never change what later nodes resolve to. -/
theorem normalizeNodes_fst (tbl0 : VariantTable) :
    ∀ (ns : List Node) (t : VariantTable),
      (∀ m : Node, (FlowGraph.apply_default_node_variant m t).1 =
        (FlowGraph.apply_default_node_variant m tbl0).1) →
      (normalizeNodes ns t).1 =
        ns.map (fun n => FlowGraph.resolve_default_variant n tbl0)
  | [], t, ht => rfl
  | n :: ns, t, ht => by
    unfold normalizeNodes
    by_cases hu : n.use_variants
    · rw [if_pos hu]
      show (FlowGraph.apply_default_node_variant n t).1 ::
          (normalizeNodes ns (FlowGraph.apply_default_node_variant n t).2).1 =
        (n :: ns).map (fun x => FlowGraph.resolve_default_variant x tbl0)
      rw [List.map_cons]
      congr 1
      · rw [ht n]
        show (FlowGraph.apply_default_node_variant n tbl0).1 =
          FlowGraph.resolve_default_variant n tbl0
        unfold FlowGraph.resolve_default_variant
        rw [if_pos hu]
      · exact normalizeNodes_fst tbl0 ns _
          (fun m => (apply_step_tblEquiv n t m).trans (ht m))
    · rw [if_neg hu]
      show n :: (normalizeNodes ns t).1 =
        (n :: ns).map (fun x => FlowGraph.resolve_default_variant x tbl0)
      rw [List.map_cons, normalizeNodes_fst tbl0 ns t ht]
      congr 1
      unfold FlowGraph.resolve_default_variant
      rw [if_neg hu]

/-- C3: `get_connection_names` computes exactly the claim's description:
normalize every `use_variants` node to its default variant, record truthy
explicit `connection` fields directly, skip Prompt/LLM nodes, look tools up
in the embedded catalog and then through the external loader (a failed
lookup contributing nothing), take literal-valued node inputs of
non-value-typed tool inputs, and drop falsy names. -/
theorem get_connection_names_matches_spec (f : FlowGraph)
    (loader : Node → Option Tool) :
    (f.get_connection_names loader).1 = get_connection_names_spec f loader := by
  show ((normalizeNodes f.nodes f.node_variants).1.foldl
      (nodeConnectionNames f loader) ∅).filter (fun item => item ≠ []) =
    get_connection_names_spec f loader
  rw [normalizeNodes_fst f.node_variants f.nodes f.node_variants (fun m => rfl)]
  unfold get_connection_names_spec
  rw [foldl_congr_fun (nodeConnectionNames f loader)
    (fun acc n => acc ∪ nodeConnectionContribSpec f loader n) _ _
    (fun b a => nodeConnectionNames_eq f loader b a)]

example :
    (FlowGraph.get_connection_names
        { id := [], name := [],
          nodes := [
            { name := some "A".data, tool := some "llm_tool".data, inputs := [],
              connection := some "conn1".data, type := some ToolType.llm },
            { name := some "B".data, tool := some "py_tool".data,
              inputs := [("c".data, { value := "conn2".data })],
              type := some ToolType.python }],
          inputs := [], outputs := [],
          tools := [
            { name := "py_tool".data,
              inputs := [("c".data, ["CustomConnection".data])] }] }
        (fun _ => none)).1 =
      {"conn1".data, "conn2".data} := by decide

/-! ### Frame effect of connection-name discovery (C9) -/

/-- Erase a node's `name` field (the one field the in-place variant
normalization can overwrite in the stored table). -/
def scrubNode (n : Node) : Node := { n with name := none }

def scrubNodeVariant (v : NodeVariant) : NodeVariant := { v with node := scrubNode v.node }

def scrubNodeVariants (nvs : NodeVariants) : NodeVariants :=
  { nvs with variants := nvs.variants.map (fun p => (p.1, scrubNodeVariant p.2)) }

/-- A variant table up to the stored variant nodes' `name` fields. -/
def scrubTable (t : VariantTable) : VariantTable :=
  t.map (fun p => (p.1, scrubNodeVariants p.2))

theorem map_aset_eq {α β : Type} (g : α → β) (k : Str) (v w : α) (l : List (Str × α))
    (hw : alookup k l = some w) (hv : g v = g w) :
    (aset k v l).map (fun p => (p.1, g p.2)) = l.map (fun p => (p.1, g p.2)) := by
  induction l with
  | nil => simp [alookup] at hw
  | cons p rest ih =>
    obtain ⟨q, u⟩ := p
    by_cases hq : q = k
    · subst hq
      rw [alookup, if_pos rfl] at hw
      obtain rfl : u = w := Option.some.inj hw
      show ((aset q v ((q, u) :: rest)).map (fun p => (p.1, g p.2))) =
        ((q, u) :: rest).map (fun p => (p.1, g p.2))
      rw [aset, if_pos rfl]
      simp only [List.map_cons]
      rw [show g v = g u from hv]
    · rw [alookup, if_neg hq] at hw
      show ((aset k v ((q, u) :: rest)).map (fun p => (p.1, g p.2))) =
        ((q, u) :: rest).map (fun p => (p.1, g p.2))
      rw [aset, if_neg hq]
      simp only [List.map_cons]
      rw [ih hw]

theorem apply_step_scrub (n : Node) (t : VariantTable) :
    scrubTable (FlowGraph.apply_default_node_variant n t).2 = scrubTable t := by
  by_cases ht : t = []
  · subst ht
    rw [apply_nil]
  · cases hname : n.name with
    | none => rw [apply_of_name_none n t hname]
    | some nm =>
      cases hl : alookup nm t with
      | none => rw [apply_of_lookup_none n nm t hname hl]
      | some nv =>
        cases hdv : alookup nv.default_variant_id nv.variants with
        | none => rw [apply_of_variant_none n nm t nv hname hl hdv]
        | some dv =>
          rw [apply_of_variant_some n nm t nv dv hname hl hdv]
          have hvar : (aset nv.default_variant_id
                { dv with node := { dv.node with name := some nm } } nv.variants).map
                (fun p => (p.1, scrubNodeVariant p.2)) =
              nv.variants.map (fun p => (p.1, scrubNodeVariant p.2)) :=
            map_aset_eq scrubNodeVariant nv.default_variant_id
              { dv with node := { dv.node with name := some nm } } dv nv.variants hdv rfl
          unfold scrubTable
          refine map_aset_eq scrubNodeVariants nm
            { nv with
              variants := aset nv.default_variant_id
                { dv with node := { dv.node with name := some nm } } nv.variants }
            nv t hl ?_
          show ({ nv with
              variants := (aset nv.default_variant_id
                { dv with node := { dv.node with name := some nm } } nv.variants).map
                  (fun p => (p.1, scrubNodeVariant p.2)) } : NodeVariants) =
            { nv with variants := nv.variants.map (fun p => (p.1, scrubNodeVariant p.2)) }
          rw [hvar]

theorem normalizeNodes_scrub :
    ∀ (ns : List Node) (t : VariantTable),
      scrubTable (normalizeNodes ns t).2 = scrubTable t
  | [], t => rfl
  | n :: ns, t => by
    unfold normalizeNodes
    by_cases hu : n.use_variants
    · rw [if_pos hu]
      show scrubTable
          (normalizeNodes ns (FlowGraph.apply_default_node_variant n t).2).2 =
        scrubTable t
      rw [normalizeNodes_scrub ns (FlowGraph.apply_default_node_variant n t).2,
        apply_step_scrub n t]
    · rw [if_neg hu]
      show scrubTable (normalizeNodes ns t).2 = scrubTable t
      exact normalizeNodes_scrub ns t

/-- C9 (amended): `get_connection_names` computes its normalized node view
as a derived value — after the call the flow's raw node list, inputs,
outputs, tools, id and name are unchanged, and the variant table is
unchanged except that a normalized variant-bearing node's default variant
may have the `name` of its stored node definition overwritten (see
`get_connection_names_mutates_variant_table` for that mutation). -/
theorem get_connection_names_frame (f : FlowGraph) (loader : Node → Option Tool) :
    (f.get_connection_names loader).2.id = f.id ∧
      (f.get_connection_names loader).2.name = f.name ∧
      (f.get_connection_names loader).2.nodes = f.nodes ∧
      (f.get_connection_names loader).2.inputs = f.inputs ∧
      (f.get_connection_names loader).2.outputs = f.outputs ∧
      (f.get_connection_names loader).2.tools = f.tools ∧
      scrubTable (f.get_connection_names loader).2.node_variants =
        scrubTable f.node_variants :=
  ⟨rfl, rfl, rfl, rfl, rfl, rfl, normalizeNodes_scrub f.nodes f.node_variants⟩

/-- C9 counterexample: the claim says the stored variant table is unchanged
by `get_connection_names`, including every variant node definition's name
field; in fact normalizing a variant-bearing node overwrites the stored
default variant's node name with the referring node's name. -/
theorem get_connection_names_mutates_variant_table :
    (FlowGraph.get_connection_names
        { id := [], name := [],
          nodes := [
            { name := some "a".data, tool := none, inputs := [],
              use_variants := true }],
          inputs := [], outputs := [], tools := [],
          node_variants := [("a".data,
            { default_variant_id := "v".data,
              variants := [("v".data,
                { node := { name := some "b".data, tool := none, inputs := [] } })] })] }
        (fun _ => none)).2.node_variants ≠
      [("a".data,
        { default_variant_id := "v".data,
          variants := [("v".data,
            { node := { name := some "b".data, tool := none, inputs := [] } })] })] := by
  decide
